import Mathlib

set_option allowUnsafeReducibility true in

attribute [semireducible] Rat.add Rat.mul Rat.sub Rat.inv Rat.div Rat.neg Rat.ofScientific

namespace SafeRoute

/-!
Verification development for the saferoute backend's safety-scoring core.

The JavaScript source is shallowly embedded: JS numbers are modelled as exact
rationals, objects as structures, missing object fields as `Option`, and the
Mongo-backed cell store as an association list of documents.  Display-only
text fields (human readable distance and duration strings) are elided; every
field that any computation reads is modelled.
-/

/- The rational arithmetic of the standard library is marked irreducible,
which only affects elaborator-side unfolding; we restore the default
transparency so that concrete runs of the embedded code can be evaluated by
the kernel through `decide`.  Soundness is unaffected: all proofs still pass
the kernel with the standard axioms. -/

/-! ## Numeric helpers

`Math.round(x)` is floor of x + 1/2.  `+(x.toFixed(2))` is modelled as exact
decimal rounding to two places, round half up, which is the `toFixed`
behaviour for the nonnegative values produced here. -/

def jsRound (q : ℚ) : ℤ := Rat.floor (q + 1/2)

def round2 (q : ℚ) : ℚ := (jsRound (q * 100) : ℚ) / 100

/-! ## SafetyScoreCompute (utils/calculateSafetyScore.js, inverting variant)

The `weights` object literal enumerates its keys in source order
lighting, crowd, police, incidents, accidents; the `for (const k in weights)`
loop visits them in that order. -/

inductive FactorKey
  | lighting | crowd | police | incidents | accidents
deriving DecidableEq

structure Factors where
  lighting : Option ℚ := Option.none
  crowd : Option ℚ := Option.none
  police : Option ℚ := Option.none
  incidents : Option ℚ := Option.none
  accidents : Option ℚ := Option.none
deriving DecidableEq

def Factors.get (f : Factors) : FactorKey → Option ℚ
  | .lighting => f.lighting
  | .crowd => f.crowd
  | .police => f.police
  | .incidents => f.incidents
  | .accidents => f.accidents

def Factors.set (f : Factors) : FactorKey → Option ℚ → Factors
  | .lighting, v => { f with lighting := v }
  | .crowd, v => { f with crowd := v }
  | .police, v => { f with police := v }
  | .incidents, v => { f with incidents := v }
  | .accidents, v => { f with accidents := v }

def weight : FactorKey → ℚ
  | .lighting => 25/100
  | .crowd => 20/100
  | .police => 25/100
  | .incidents => 20/100
  | .accidents => 10/100

def weightKeys : List FactorKey :=
  [.lighting, .crowd, .police, .incidents, .accidents]

/-- Embeds the read `(factors && factors[k]) || 5`: a null factor record, an
absent key and the falsy value 0 all yield the default 5. -/
def readFactor (factors : Option Factors) (k : FactorKey) : ℚ :=
  match factors with
  | Option.none => 5
  | Option.some f =>
    match f.get k with
    | Option.none => 5
    | Option.some v => if v = 0 then 5 else v

/-- One factor's contribution before weighting: range clamp to 0..10, then the
risk inversion 10 - val for incidents and accidents. -/
def factorContribution (factors : Option Factors) (k : FactorKey) : ℚ :=
  let val := max 0 (min 10 (readFactor factors k))
  if k = .incidents ∨ k = .accidents then 10 - val else val

/-- The inverting calculateSafetyScore: the loop accumulates
total += val * weights[k] and wsum += weights[k], then returns
the weighted mean rounded to two decimals. -/
def calculateSafetyScore (factors : Option Factors) : ℚ :=
  let acc := weightKeys.foldl
    (fun (tw : ℚ × ℚ) k =>
      (tw.1 + factorContribution factors k * weight k, tw.2 + weight k))
    (0, 0)
  round2 (acc.1 / acc.2)

/-- Modelled from the spec: the canonical aggregation reads each factor and
defaults to 5 only when the factor is absent, then clamps, inverts the two
risk factors and takes the rounded weighted mean.  It differs from the code's
`readFactor` only in the treatment of an explicit 0. -/
def readFactorSpec (factors : Option Factors) (k : FactorKey) : ℚ :=
  match factors with
  | Option.none => 5
  | Option.some f =>
    match f.get k with
    | Option.none => 5
    | Option.some v => v

/-- Modelled from the spec: contribution of one factor under the spec's
read-default-clamp-invert rule. -/
def factorContributionSpec (factors : Option Factors) (k : FactorKey) : ℚ :=
  let val := max 0 (min 10 (readFactorSpec factors k))
  if k = .incidents ∨ k = .accidents then 10 - val else val

/-- Modelled from the spec: canonical weighted aggregation. -/
def calculateSafetyScoreSpec (factors : Option Factors) : ℚ :=
  let acc := weightKeys.foldl
    (fun (tw : ℚ × ℚ) k =>
      (tw.1 + factorContributionSpec factors k * weight k, tw.2 + weight k))
    (0, 0)
  round2 (acc.1 / acc.2)

/-- The factor record of the C1 test vector. -/
def fullSafeFactors : Factors :=
  { lighting := Option.some 10, crowd := Option.some 10,
    police := Option.some 10, incidents := Option.some 0,
    accidents := Option.some 0 }

/-! ## GeohashCodec (utils/geohashUtils.js wrapping the ngeohash package)

The wrapper calls ngeohash.encode with the shared precision 7;
decode_bbox is the ngeohash bounding-box decoder used by safetyRoutes.
The ngeohash loops are embedded step by step: alternate halving of the
longitude and latitude interval, five bits per base-32 character. -/

structure GeoBox where
  minLat : ℚ
  maxLat : ℚ
  minLon : ℚ
  maxLon : ℚ

def geoBox0 : GeoBox :=
  { minLat := -90, maxLat := 90, minLon := -180, maxLon := 180 }

/-- One subdivision step shared by encode and decode_bbox: halve the box
along longitude (when isLon) or latitude, keeping the upper half exactly
when the bit is set; mid is (max + min) / 2 of the halved direction. -/
def geoApply : Bool → Bool → GeoBox → GeoBox
  | true, true, b => { b with minLon := (b.maxLon + b.minLon) / 2 }
  | true, false, b => { b with maxLon := (b.maxLon + b.minLon) / 2 }
  | false, true, b => { b with minLat := (b.maxLat + b.minLat) / 2 }
  | false, false, b => { b with maxLat := (b.maxLat + b.minLat) / 2 }

/-- The bit the encode loop emits: the strict test `longitude > mid`
respectively `latitude > mid`. -/
def geoBit (lat lng : ℚ) (isLon : Bool) (b : GeoBox) : Bool :=
  if isLon then decide ((b.maxLon + b.minLon) / 2 < lng)
  else decide ((b.maxLat + b.minLat) / 2 < lat)

def BASE32_CODES : List Char := "0123456789bcdefghjkmnpqrstuvwxyz".data

def base32Char (v : Nat) : Char := BASE32_CODES.getD v '0'

/-- hash_value accumulation of five bits, `hash_value = (hash_value << 1) + bit`. -/
def hashVal (b1 b2 b3 b4 b5 : Bool) : Nat :=
  ((((cond b1 1 0) * 2 + cond b2 1 0) * 2 + cond b3 1 0) * 2 + cond b4 1 0) * 2
    + cond b5 1 0

/-- Five turns of the ngeohash encode while loop (the bits counter runs from
0 to 4 and then one base-32 character is pushed).  Returns the character, the
parity for the next bit, and the refined box. -/
def encodeChar (lat lng : ℚ) (isLon : Bool) (b : GeoBox) : Char × Bool × GeoBox :=
  let b1 := geoBit lat lng isLon b
  let s1 := geoApply isLon b1 b
  let b2 := geoBit lat lng (!isLon) s1
  let s2 := geoApply (!isLon) b2 s1
  let b3 := geoBit lat lng isLon s2
  let s3 := geoApply isLon b3 s2
  let b4 := geoBit lat lng (!isLon) s3
  let s4 := geoApply (!isLon) b4 s3
  let b5 := geoBit lat lng isLon s4
  let s5 := geoApply isLon b5 s4
  (base32Char (hashVal b1 b2 b3 b4 b5), !isLon, s5)

/-- The encode while loop, one character per iteration; the final box is the
loop's internal state, returned so the containment invariant can be stated. -/
def encodeLoop (lat lng : ℚ) : Nat → Bool → GeoBox → List Char × GeoBox
  | 0, _, b => ([], b)
  | n+1, isLon, b =>
    let step := encodeChar lat lng isLon b
    let rest := encodeLoop lat lng n step.2.1 step.2.2
    (step.1 :: rest.1, rest.2)

def precision : Nat := 7

/-- geohashUtils.encode: ngeohash.encode at the shared precision 7.  Note
that no range validation occurs anywhere on this code path. -/
def encode (lat lng : ℚ) : String :=
  String.mk (encodeLoop lat lng precision true geoBox0).1

/-- Modelled from the spec: the spec states that encode fails with a
RangeError when lat is outside -90..90 or lng outside -180..180, and in
range returns the deterministic fixed-precision id.  This definition follows
the spec's words, deferring to the code's encode on in-range input; the code
itself performs no such check. -/
def encodeRangeChecked (lat lng : ℚ) : Except String String :=
  if lat < -90 ∨ 90 < lat ∨ lng < -180 ∨ 180 < lng then Except.error "RangeError"
  else Except.ok (encode lat lng)

/-- toLowerCase of one character, as decode_bbox applies it. -/
def jsToLower (c : Char) : Char :=
  if 'A' ≤ c ∧ c ≤ 'Z' then Char.ofNat (c.toNat + 32) else c

/-- BASE32_CODES_DICT lookup.  An unknown character gives undefined in JS,
whose 32-bit reads are all 0; that coincides with index 0, used as the
fallback here. -/
def base32Index (c : Char) : Nat :=
  (BASE32_CODES.findIdx? (fun d => d = jsToLower c)).getD 0

/-- The inner loop of decode_bbox for one character: bits 4 down to 0 of the
dictionary value, alternating longitude and latitude. -/
def decodeBBoxChar (c : Char) (isLon : Bool) (b : GeoBox) : Bool × GeoBox :=
  let v := base32Index c
  let t1 := geoApply isLon (decide (v / 16 % 2 = 1)) b
  let t2 := geoApply (!isLon) (decide (v / 8 % 2 = 1)) t1
  let t3 := geoApply isLon (decide (v / 4 % 2 = 1)) t2
  let t4 := geoApply (!isLon) (decide (v / 2 % 2 = 1)) t3
  let t5 := geoApply isLon (decide (v % 2 = 1)) t4
  (!isLon, t5)

def decodeBBoxLoop : List Char → Bool → GeoBox → GeoBox
  | [], _, b => b
  | c :: rest, isLon, b =>
    let step := decodeBBoxChar c isLon b
    decodeBBoxLoop rest step.1 step.2

/-- ngeohash.decode_bbox: returns (minLat, minLon, maxLat, maxLon). -/
def decode_bbox (h : String) : ℚ × ℚ × ℚ × ℚ :=
  let b := decodeBBoxLoop h.data true geoBox0
  (b.minLat, b.minLon, b.maxLat, b.maxLon)

/-- The coordinate lies inside the box. -/
def InBox (lat lng : ℚ) (b : GeoBox) : Prop :=
  b.minLat ≤ lat ∧ lat ≤ b.maxLat ∧ b.minLon ≤ lng ∧ lng ≤ b.maxLon

/-! ## PolylineSampler: the mapbox polyline decoder and the
decode-with-recovery pipeline tryDecodePolyline of routeRoutes.js.

Encoded strings are modelled as character lists.  charCodeAt past the end of
the string yields NaN in JS, whose masked five bits read 0 and whose
continuation test is false; the empty-list equations mirror exactly that.
The coordinates pushed are lat / 1e5 and lng / 1e5 of the running integer
accumulators; the embedding keeps them exact (the doubles are exact for all
realistic magnitudes). -/

def lbrace : Char := Char.ofNat 123

def rbrace : Char := Char.ofNat 125

def backslash : Char := Char.ofNat 92

def quoteChar : Char := Char.ofNat 34

/-- The inner do-while of polyline decode: byte = code - 63,
result += (byte AND 0x1f) * shift, shift *= 32, repeated while byte >= 0x20.
byte AND 0x1f is byte mod 32 (32-bit semantics for the codes involved). -/
def parseChunk (shift acc : Nat) : List Char → Nat × List Char
  | [] => (acc, [])
  | c :: rest =>
    let byte : Int := (c.toNat : Int) - 63
    let acc1 := acc + (byte.emod 32).toNat * shift
    if 32 ≤ byte then parseChunk (shift * 32) acc1 rest else (acc1, rest)

/-- The signed delta: (result AND 1) selects (-result - 1) / 2, which for odd
result is exactly -((result + 1) / 2), otherwise result / 2. -/
def unzig (r : Nat) : Int :=
  if r % 2 = 1 then -(((r : Int) + 1) / 2) else (r : Int) / 2

/-- The outer while loop of polyline decode.  Structural recursion needs
explicit fuel; every iteration consumes at least one character, so fuel equal
to the input length never runs out (polyDecodeAux_fuel below). -/
def polyDecodeAux : Nat → List Char → Int → Int → List (ℚ × ℚ)
  | _, [], _, _ => []
  | 0, _ :: _, _, _ => []
  | fuel+1, c :: rest, lat, lng =>
    let p1 := parseChunk 1 0 (c :: rest)
    let dlat := unzig p1.1
    let p2 := parseChunk 1 0 p1.2
    let dlng := unzig p2.1
    let lat1 := lat + dlat
    let lng1 := lng + dlng
    ((lat1 : ℚ) / 100000, (lng1 : ℚ) / 100000) :: polyDecodeAux fuel p2.2 lat1 lng1

/-- polyline.decode of the mapbox package (precision left at the default 5). -/
def polyDecode (s : List Char) : List (ℚ × ℚ) := polyDecodeAux s.length s 0 0

/-- tryDecode of routeRoutes.js: polyline.decode never throws, and the
helper returns null exactly when the decoded array is empty. -/
def tryDecode (s : List Char) : Option (List (ℚ × ℚ)) :=
  let p := polyDecode s
  if p = [] then Option.none else Option.some p

/-- String.prototype.replace of doubled backslashes by single ones: global,
left to right, non-overlapping. -/
def unescapeDoubledBackslashes : List Char → List Char
  | c1 :: c2 :: rest =>
    if c1 = backslash ∧ c2 = backslash then
      backslash :: unescapeDoubledBackslashes rest
    else c1 :: unescapeDoubledBackslashes (c2 :: rest)
  | s => s

/-- The replace of every double quote by an escaped double quote that
precedes the JSON.parse recovery step. -/
def escapeQuotes : List Char → List Char
  | [] => []
  | c :: rest =>
    if c = quoteChar then backslash :: quoteChar :: escapeQuotes rest
    else c :: escapeQuotes rest

def hexVal (c : Char) : Option Nat :=
  if '0' ≤ c ∧ c ≤ '9' then Option.some (c.toNat - 48)
  else if 'a' ≤ c ∧ c ≤ 'f' then Option.some (c.toNat - 87)
  else if 'A' ≤ c ∧ c ≤ 'F' then Option.some (c.toNat - 55)
  else Option.none

/-- The body of JSON.parse on a quoted string: standard JSON escapes; an
invalid escape or a bare control character raises (None).  A unicode escape
is modelled as the scalar of its four hex digits. -/
def jsonUnescape : List Char → Option (List Char)
  | [] => Option.some []
  | c :: rest =>
    if c = backslash then
      match rest with
      | [] => Option.none
      | e :: rest2 =>
        if e = quoteChar then (jsonUnescape rest2).map (fun l => quoteChar :: l)
        else if e = backslash then (jsonUnescape rest2).map (fun l => backslash :: l)
        else if e = '/' then (jsonUnescape rest2).map (fun l => '/' :: l)
        else if e = 'b' then (jsonUnescape rest2).map (fun l => Char.ofNat 8 :: l)
        else if e = 'f' then (jsonUnescape rest2).map (fun l => Char.ofNat 12 :: l)
        else if e = 'n' then (jsonUnescape rest2).map (fun l => Char.ofNat 10 :: l)
        else if e = 'r' then (jsonUnescape rest2).map (fun l => Char.ofNat 13 :: l)
        else if e = 't' then (jsonUnescape rest2).map (fun l => Char.ofNat 9 :: l)
        else if e = 'u' then
          match rest2 with
          | h1 :: h2 :: h3 :: h4 :: rest3 =>
            match hexVal h1, hexVal h2, hexVal h3, hexVal h4 with
            | Option.some v1, Option.some v2, Option.some v3, Option.some v4 =>
              (jsonUnescape rest3).map
                (fun l => Char.ofNat (((v1 * 16 + v2) * 16 + v3) * 16 + v4) :: l)
            | _, _, _, _ => Option.none
          | _ => Option.none
        else Option.none
    else if c.toNat < 32 then Option.none
    else (jsonUnescape rest).map (fun l => c :: l)

structure DecodeResult where
  pts : List (ℚ × ℚ)
  encoded : List Char
deriving DecidableEq

/-- tryDecodePolyline of routeRoutes.js: direct decode first; if it yields no
points, strip surrounding braces and un-double backslashes and retry; as a
last resort JSON-unescape the original and retry; otherwise empty points. -/
def tryDecodePolyline (encoded : List Char) : DecodeResult :=
  match tryDecode encoded with
  | Option.some p => { pts := p, encoded := encoded }
  | Option.none =>
    let cleaned0 :=
      if encoded ≠ [] ∧ encoded.head? = Option.some lbrace ∧
          encoded.getLast? = Option.some rbrace
      then (encoded.drop 1).dropLast
      else encoded
    let cleaned := unescapeDoubledBackslashes cleaned0
    match tryDecode cleaned with
    | Option.some p => { pts := p, encoded := cleaned }
    | Option.none =>
      match jsonUnescape (escapeQuotes encoded) with
      | Option.some unescaped =>
        match tryDecode unescaped with
        | Option.some p => { pts := p, encoded := unescaped }
        | Option.none => { pts := [], encoded := encoded }
      | Option.none => { pts := [], encoded := encoded }

/-! ## RouteNormalizer and processProviderRoutes of routeRoutes.js -/

/-- Filling a JS Set and reading it back with Array.from: insertion-ordered
deduplication keeping first occurrences. -/
def insertOrderDedup (l : List String) : List String :=
  l.foldl (fun acc h => if h ∈ acc then acc else acc ++ [h]) []

/-- A distance or duration object; the display text is elided, the numeric
value field is kept (it may be absent). -/
structure ValueObj where
  value : Option ℚ
deriving DecidableEq

/-- The shape of route.polyline on a provider route: a plain string, an
object with an encodedPolyline string, an object whose encodedPolyline holds
a polyline string, an object with a points string, some other object, or
absent. -/
inductive PolyField
  | pstr (s : List Char)
  | pEnc (s : List Char)
  | pEncObj (s : List Char)
  | pPoints (s : List Char)
  | pOther
  | pAbsent
deriving DecidableEq

/-- One raw provider route; every field any of the processing code reads is
modelled, display-only strings excepted. -/
structure ProviderRoute where
  poly : PolyField := PolyField.pAbsent
  overviewPoints : Option (List Char) := Option.none
  encodedTop : Option (List Char) := Option.none
  summary : String := ""
  legDistance : Option ValueObj := Option.none
  distanceMeters : Option ℚ := Option.none
  legDuration : Option ValueObj := Option.none
  durationSeconds : Option ℚ := Option.none
deriving DecidableEq

def extractFallback (r : ProviderRoute) : Option (List Char) :=
  match r.overviewPoints with
  | Option.some s => Option.some s
  | Option.none => r.encodedTop

/-- extractEncodedPolyline: probes the known field paths in order.  An empty
route.polyline string is falsy, so the outer `if (route.polyline)` fails and
the overview and top-level fallbacks are probed; the nested string fields
are returned even when empty. -/
def extractEncodedPolyline (r : ProviderRoute) : Option (List Char) :=
  match r.poly with
  | PolyField.pstr s => if s = [] then extractFallback r else Option.some s
  | PolyField.pEnc s => Option.some s
  | PolyField.pEncObj s => Option.some s
  | PolyField.pPoints s => Option.some s
  | PolyField.pOther => extractFallback r
  | PolyField.pAbsent => extractFallback r

/-- formatDistance: legs[0].distance when present, else an object built from
distanceMeters, else null. -/
def formatDistance (r : ProviderRoute) : Option ValueObj :=
  match r.legDistance with
  | Option.some d => Option.some d
  | Option.none =>
    match r.distanceMeters with
    | Option.some m => Option.some { value := Option.some m }
    | Option.none => Option.none

/-- formatDuration: legs[0].duration, else an object built from the
duration seconds field, else null. -/
def formatDuration (r : ProviderRoute) : Option ValueObj :=
  match r.legDuration with
  | Option.some d => Option.some d
  | Option.none =>
    match r.durationSeconds with
    | Option.some sec => Option.some { value := Option.some sec }
    | Option.none => Option.none

inductive ScoreVal
  | num (q : ℚ)
  | noData
deriving DecidableEq

/-- One normalized result item.  processProviderRoutes leaves safety_score,
color and tags unset (modelled by the defaults); scoreAndTagResults fills
them in.  The same shape serves the legacy GET handler's items. -/
structure RouteItem where
  summary : String := ""
  polyline : List Char := []
  distance : Option ValueObj := Option.none
  duration : Option ValueObj := Option.none
  decoded_point_count : Nat := 0
  created_cells_count : Nat := 0
  created_cells : List String := []
  areaIds : List String := []
  safety_score : ScoreVal := ScoreVal.noData
  color : String := ""
  tags : List String := []
deriving DecidableEq

/-- The synthesized duration when only a distance is known:
seconds = Math.round((meters / 1000) / avgKmph * 3600). -/
def estimateDuration (avgKmph m : ℚ) : ValueObj :=
  { value := Option.some ((jsRound (m / 1000 / avgKmph * 3600) : ℤ) : ℚ) }

/-- One iteration of the processProviderRoutes loop; None when the route is
skipped by `continue` (no extractable or a falsy empty polyline). -/
def mkItem (avgKmph : ℚ) (route : ProviderRoute) : Option RouteItem :=
  match extractEncodedPolyline route with
  | Option.none => Option.none
  | Option.some encodedRaw =>
    if encodedRaw = [] then Option.none
    else
      let d := tryDecodePolyline encodedRaw
      let hashArray := insertOrderDedup (d.pts.map (fun p => encode p.1 p.2))
      let dist := formatDistance route
      let dur0 := formatDuration route
      let durVal : Option ℚ :=
        match dur0 with
        | Option.none => Option.none
        | Option.some d0 => d0.value
      let distVal : Option ℚ :=
        match dist with
        | Option.none => Option.none
        | Option.some dd => dd.value
      let dur : Option ValueObj :=
        match durVal, distVal with
        | Option.none, Option.some m => Option.some (estimateDuration avgKmph m)
        | _, _ => dur0
      Option.some
        { summary := route.summary, polyline := d.encoded, distance := dist,
          duration := dur, decoded_point_count := d.pts.length,
          created_cells_count := 0, created_cells := [], areaIds := hashArray }

/-- processProviderRoutes: the per-route loop body is independent across
routes and pushes at most one item per route, in order. -/
def processProviderRoutes (avgKmph : ℚ) (routes : List ProviderRoute) : List RouteItem :=
  routes.filterMap (mkItem avgKmph)

/-! ## CellStore and the lazy cell creation ensureSafetyCells

The persistent SafetyScore collection is an association list of documents.
The score field is optional, modelling documents whose score is not a
number; mongoose applies the schema defaults (score 5, all factors 5) to a
document inserted by an upsert. -/

def defaultFactors : Factors :=
  { lighting := Option.some 5, crowd := Option.some 5, police := Option.some 5,
    incidents := Option.some 5, accidents := Option.some 5 }

structure CellDoc where
  areaId : String
  score : Option ℚ
  factors : Factors
  nearestPolice : Option (String × ℤ)
deriving DecidableEq

/-- The document created for a missing id: only the areaId is set on insert,
every other field takes its schema default. -/
def defaultCell (h : String) : CellDoc :=
  { areaId := h, score := Option.some 5, factors := defaultFactors,
    nearestPolice := Option.none }

abbrev Store := List CellDoc

def findCell (store : Store) (h : String) : Option CellDoc :=
  store.find? (fun c => c.areaId = h)

def hasCell (store : Store) (h : String) : Bool :=
  store.any (fun c => c.areaId = h)

/-- One updateOne upsert of `$setOnInsert: areaId` semantics: insert the
default document only when no document matches the filter.  An (ordered)
bulkWrite executes its ops sequentially. -/
def upsertCell (store : Store) (h : String) : Store :=
  if hasCell store h then store else store ++ [defaultCell h]

structure EnsureResult where
  missing : List String
  created : Nat
  store : Store

/-- The areaIds of the documents the batch find returns for the queried ids
(the existingSet of ensureSafetyCells). -/
def existingSetOf (store : Store) (qids : List String) : List String :=
  (store.filter (fun c => c.areaId ∈ qids)).map (fun c => c.areaId)

/-- The queried ids with no document in the store. -/
def missingOf (store : Store) (qids : List String) : List String :=
  qids.filter (fun h => h ∉ existingSetOf store qids)

/-- ensureSafetyCells of routeRoutes.js: short-circuit on an empty id list;
otherwise fetch the existing ids, filter the missing ones, bulk-upsert them
(only when some are missing), and report them together with their count. -/
def ensureSafetyCells (store : Store) (hashArray : List String) : EnsureResult :=
  if hashArray = [] then { missing := [], created := 0, store := store }
  else
    { missing := missingOf store hashArray,
      created := (missingOf store hashArray).length,
      store :=
        if missingOf store hashArray = [] then store
        else (missingOf store hashArray).foldl upsertCell store }

abbrev NodupKeys (store : Store) : Prop :=
  (store.map (fun c => c.areaId)).Nodup

/-! ## RouteScorer: scoreAndTagResults of routeRoutes.js -/

/-- colorFromScore: gray for the sentinel, then the 7.5 and 5 thresholds. -/
def colorFromScore (s : ScoreVal) : String :=
  match s with
  | ScoreVal.noData => "gray"
  | ScoreVal.num q => if (7.5 : ℚ) ≤ q then "green" else if (5 : ℚ) ≤ q then "yellow" else "red"

/-- The union Set of the areaIds of all results, in insertion order. -/
def unionHashes (results : List RouteItem) : List String :=
  insertOrderDedup ((results.map (fun r => r.areaIds)).flatten)

/-- Reading the scoreMap at an id: the Map is filled with Map.set while
iterating the fetched cells, so the last matching document wins; a document
whose score is not a number is stored as 5. -/
def scoreMapGet (cells : Store) (id : String) : Option ℚ :=
  (cells.reverse.find? (fun c => c.areaId = id)).map (fun c => c.score.getD 5)

/-- The total and count accumulation over the covered ids of one route:
the absent-from-map fallback is 5. -/
def routeTotals (cells : Store) (ids : List String) : ℚ × Nat :=
  ids.foldl (fun tc id => (tc.1 + (scoreMapGet cells id).getD 5, tc.2 + 1)) (0, 0)

/-- The scoring pass of scoreAndTagResults for one route: empty coverage
gets the sentinel; otherwise the rounded mean, the color, and the created
cell bookkeeping (the first 50 created ids). -/
def scoreRoute (cells : Store) (createdList : List String) (r : RouteItem) : RouteItem :=
  if r.areaIds = [] then
    { r with safety_score := ScoreVal.noData, color := colorFromScore ScoreVal.noData }
  else
    let tc := routeTotals cells r.areaIds
    let avg : ScoreVal :=
      if tc.2 ≠ 0 then ScoreVal.num (round2 (tc.1 / (tc.2 : ℚ))) else ScoreVal.noData
    let createdHere := r.areaIds.filter (fun id => id ∈ createdList)
    { r with
      safety_score := avg
      color := colorFromScore avg
      created_cells_count := createdHere.length
      created_cells := createdHere.take 50 }

/-- Comparison against a running best that starts at negative infinity
(modelled as None): true when the candidate strictly exceeds the best. -/
def jsGtNegInf (best cand : Option ℚ) : Bool :=
  match best, cand with
  | _, Option.none => false
  | Option.none, Option.some _ => true
  | Option.some x, Option.some y => decide (x < y)

/-- Comparison against a running best that starts at positive infinity
(modelled as None): true when the candidate is strictly below the best. -/
def jsLtPosInf (best cand : Option ℚ) : Bool :=
  match best, cand with
  | _, Option.none => false
  | Option.none, Option.some _ => true
  | Option.some x, Option.some y => decide (y < x)

/-- The reduce picking the first index of the maximal numeric safety score;
non-numbers weigh negative infinity and the initial index is -1. -/
def safestIndex (results : List RouteItem) : ℤ :=
  (results.enum.foldl
    (fun (best : ℤ × Option ℚ) cur =>
      let v : Option ℚ :=
        match cur.2.safety_score with
        | ScoreVal.num q => Option.some q
        | ScoreVal.noData => Option.none
      if jsGtNegInf best.2 v then ((cur.1 : ℤ), v) else best)
    (-1, Option.none)).1

/-- The reduce picking the first index of the minimal duration value;
missing durations weigh positive infinity and the initial index is -1. -/
def fastestIndex (results : List RouteItem) : ℤ :=
  (results.enum.foldl
    (fun (best : ℤ × Option ℚ) cur =>
      let v : Option ℚ :=
        match cur.2.duration with
        | Option.some d => d.value
        | Option.none => Option.none
      if jsLtPosInf best.2 v then ((cur.1 : ℤ), v) else best)
    (-1, Option.none)).1

/-- The reduce picking the first index of the minimal distance value. -/
def shortestIndex (results : List RouteItem) : ℤ :=
  (results.enum.foldl
    (fun (best : ℤ × Option ℚ) cur =>
      let v : Option ℚ :=
        match cur.2.distance with
        | Option.some d => d.value
        | Option.none => Option.none
      if jsLtPosInf best.2 v then ((cur.1 : ℤ), v) else best)
    (-1, Option.none)).1

/-- The tagging pass: each route receives the tags whose winning index it
occupies, pushed in the order safest, fastest, shortest. -/
def tagRoutes (results : List RouteItem) : List RouteItem :=
  let si := safestIndex results
  let fi := fastestIndex results
  let shi := shortestIndex results
  results.enum.map (fun p =>
    { p.2 with tags :=
        (if (p.1 : ℤ) = si then ["safest"] else []) ++
        (if (p.1 : ℤ) = fi then ["fastest"] else []) ++
        (if (p.1 : ℤ) = shi then ["shortest"] else []) })

/-- scoreAndTagResults: union the areaIds, ensure the missing cells, requery
the union, then score and tag each route in input order (no ranking occurs
here).  The source guards the store work with `if (hashArray.length)`;
ensureSafetyCells short-circuits on the empty list and the empty filter
yields the empty cell list, so the guard is absorbed. -/
def scoreAndTagResults (results : List RouteItem) (store : Store) :
    List RouteItem × Store :=
  let hashArray := unionHashes results
  let er := ensureSafetyCells store hashArray
  let cells := er.store.filter (fun c => c.areaId ∈ hashArray)
  (tagRoutes (results.map (scoreRoute cells er.missing)), er.store)

/-- The pairwise ranking property the spec asserts: a no-data score never
precedes a numeric one, and numeric scores are non-increasing. -/
def scoreOrderedB : ScoreVal → ScoreVal → Bool
  | ScoreVal.noData, ScoreVal.num _ => false
  | ScoreVal.num x, ScoreVal.num y => decide (y ≤ x)
  | _, _ => true

/-- The score a route reads for one id after the re-fetch, the way the spec
phrases it: the stored numeric score of the resolved document, 5 for a
document without a numeric score, and the defensive default 5 when the id
resolves to nothing. -/
def resolvedScore (store1 : Store) (id : String) : ℚ :=
  match findCell store1 id with
  | Option.some c => c.score.getD 5
  | Option.none => 5

/-- The spec's per-route score: "no data" on empty coverage, otherwise the
arithmetic mean of the covered cells' scores rounded to two decimals. -/
def expectedScore (store1 : Store) (ids : List String) : ScoreVal :=
  if ids = [] then ScoreVal.noData
  else ScoreVal.num (round2 ((ids.map (resolvedScore store1)).sum / (ids.length : ℚ)))

/-- A concrete stored document used by the witnesses. -/
def docA3 : CellDoc :=
  { areaId := "a", score := Option.some 3, factors := defaultFactors,
    nearestPolice := Option.none }

/-- The concrete candidate routes used by the C4 witness: one covering the
stored cell a and a fresh cell x, one covering nothing. -/
def rsW : List RouteItem := [{ areaIds := ["a", "x"] }, { areaIds := [] }]

/-! ## The ranking step of the legacy GET compare handler

results.sort with the comparator that sends sentinel scores last and numeric
scores descending.  Array.prototype.sort is modelled as a stable merge sort
driven by the comparator: the left run's element is emitted exactly when the
comparator is at most zero.  Fuel makes the recursions structural; the
initial fuel is always sufficient. -/

/-- The comparator of the legacy sort: positive when a has the sentinel,
negative when only b has it, otherwise b - a. -/
def legacyCompare (a b : RouteItem) : ℚ :=
  match a.safety_score with
  | ScoreVal.noData => 1
  | ScoreVal.num x =>
    match b.safety_score with
    | ScoreVal.noData => -1
    | ScoreVal.num y => y - x

def jsMergeAux (cmp : RouteItem → RouteItem → ℚ) :
    Nat → List RouteItem → List RouteItem → List RouteItem
  | 0, xs, ys => xs ++ ys
  | _+1, [], ys => ys
  | _+1, x :: xs, [] => x :: xs
  | f+1, x :: xs, y :: ys =>
    if cmp x y ≤ 0 then x :: jsMergeAux cmp f xs (y :: ys)
    else y :: jsMergeAux cmp f (x :: xs) ys

def jsMerge (cmp : RouteItem → RouteItem → ℚ) (xs ys : List RouteItem) : List RouteItem :=
  jsMergeAux cmp (xs.length + ys.length) xs ys

def jsSortAux (cmp : RouteItem → RouteItem → ℚ) : Nat → List RouteItem → List RouteItem
  | _, [] => []
  | _, [x] => [x]
  | 0, xs => xs
  | f+1, xs =>
    jsMerge cmp (jsSortAux cmp f (xs.take (xs.length / 2)))
      (jsSortAux cmp f (xs.drop (xs.length / 2)))

/-- The sort call of the legacy GET compare handler. -/
def sortResultsLegacy (l : List RouteItem) : List RouteItem :=
  jsSortAux legacyCompare l.length l

/-! ## PoliceProximityMapper: the POST map-nearest-police handler of
safetyRoutes.js

The nearest-police lookup (the geoNear aggregation over the police station
collection plus the haversine rounding) is the POI collaborator; it is
modelled as an oracle from the queried center coordinate to an optional
pair of placeId and rounded distance in meters.  The mongoose cursor is
modelled as the snapshot list of the matching documents.  lastUpdated
timestamps are elided (which is also why a matched bulk-update item is
counted as modified). -/

/-- mapDistanceToPoliceScore: the monotone distance thresholds. -/
def mapDistanceToPoliceScore (m : ℤ) : ℚ :=
  if m ≤ 250 then 10
  else if m ≤ 500 then 8
  else if m ≤ 1000 then 6
  else if m ≤ 2000 then 4
  else if m ≤ 4000 then 2
  else 0

/-- The latitude of the bbox center of a cell, (minLat + maxLat) / 2. -/
def centerLat (areaId : String) : ℚ :=
  ((decode_bbox areaId).1 + (decode_bbox areaId).2.2.1) / 2

/-- The longitude of the bbox center of a cell, (minLon + maxLon) / 2. -/
def centerLng (areaId : String) : ℚ :=
  ((decode_bbox areaId).2.1 + (decode_bbox areaId).2.2.2) / 2

/-- One per-cell entry of the response's results array. -/
structure MapResult where
  areaId : String
  nearest : Option (String × ℤ)
  policeScore : Option ℚ
deriving DecidableEq

/-- One pending updateOne $set of the bulk update: the police sub-factor,
the recomputed score and the nearest-police back-reference. -/
structure SetOp where
  areaId : String
  police : ℚ
  score : ℚ
  nearestPolice : String × ℤ
deriving DecidableEq

/-- Applying one updateOne $set patch to the first matching document. -/
def applySetOp : Store → SetOp → Store
  | [], _ => []
  | c :: rest, op =>
    if c.areaId = op.areaId then
      { c with
        score := Option.some op.score
        factors := { c.factors with police := Option.some op.police }
        nearestPolice := Option.some op.nearestPolice } :: rest
    else c :: applySetOp rest op

/-- One bulkWrite of pending ops: every op whose filter matches modifies its
document (the real write always changes lastUpdated) and is counted in
modifiedCount. -/
def flushOps (store : Store) (ops : List SetOp) : Store × Nat :=
  ops.foldl
    (fun sn op =>
      if hasCell sn.1 op.areaId then (applySetOp sn.1 op, sn.2 + 1) else (sn.1, sn.2))
    (store, 0)

/-- The per-cell result pushed for one document: null nearest when the
oracle finds no station, otherwise the chosen station and its step score. -/
def mapResultOf (oracle : ℚ → ℚ → Option (String × ℤ)) (doc : CellDoc) : MapResult :=
  match oracle (centerLat doc.areaId) (centerLng doc.areaId) with
  | Option.none => { areaId := doc.areaId, nearest := Option.none, policeScore := Option.none }
  | Option.some best =>
    { areaId := doc.areaId, nearest := Option.some best,
      policeScore := Option.some (mapDistanceToPoliceScore best.2) }

/-- The $set the loop queues for one matched document: Object.assign of the
existing factors with the new police sub-factor, then the recomputed
aggregate score. -/
def pendingOpOf (doc : CellDoc) (best : String × ℤ) : SetOp :=
  { areaId := doc.areaId
    police := mapDistanceToPoliceScore best.2
    score := calculateSafetyScore
      (Option.some { doc.factors with police := Option.some (mapDistanceToPoliceScore best.2) })
    nearestPolice := best }

structure MapState where
  results : List MapResult
  ops : List SetOp
  updated : Nat
  store : Store

/-- One iteration of the cursor loop: push the per-cell result; when a
station was found and the run is not dry, queue the $set; flush a full batch
of 200. -/
def mapNearestStep (oracle : ℚ → ℚ → Option (String × ℤ)) (dry : Bool)
    (st : MapState) (doc : CellDoc) : MapState :=
  match oracle (centerLat doc.areaId) (centerLng doc.areaId) with
  | Option.none => { st with results := st.results ++ [mapResultOf oracle doc] }
  | Option.some best =>
    let st1 := { st with results := st.results ++ [mapResultOf oracle doc] }
    let st2 := if dry then st1 else { st1 with ops := st1.ops ++ [pendingOpOf doc best] }
    if 200 ≤ st2.ops.length then
      { st2 with
        ops := []
        store := (flushOps st2.store st2.ops).1
        updated := st2.updated + (flushOps st2.store st2.ops).2 }
    else st2

structure PoliceMapResp where
  processed : Nat
  updated : Nat
  results : List MapResult
  store : Store

def initMapState (store : Store) : MapState :=
  { results := [], ops := [], updated := 0, store := store }

/-- The trailing `if (ops.length && !dry) bulkWrite` of the handler. -/
def finalFlush (dry : Bool) (st : MapState) : MapState :=
  if st.ops ≠ [] ∧ ¬dry then
    { st with
      ops := []
      store := (flushOps st.store st.ops).1
      updated := st.updated + (flushOps st.store st.ops).2 }
  else st

/-- The body of the handler after the documents have been selected: fold the
cursor loop, flush the leftover ops unless the run is dry, and answer with
processed, the dry-forced-zero updated count and the results. -/
def mapNearestPolice (docs : List CellDoc) (store : Store)
    (oracle : ℚ → ℚ → Option (String × ℤ)) (dry : Bool) : PoliceMapResp :=
  { processed := docs.length
    updated := if dry then 0 else
      (finalFlush dry (docs.foldl (mapNearestStep oracle dry) (initMapState store))).updated
    results :=
      (finalFlush dry (docs.foldl (mapNearestStep oracle dry) (initMapState store))).results
    store :=
      (finalFlush dry (docs.foldl (mapNearestStep oracle dry) (initMapState store))).store }

/-- The cursor's document selection: the explicit id list when given,
otherwise the first `limit` documents. -/
def selectMapDocs (store : Store) (ids : Option (List String)) (limit : Nat) :
    List CellDoc :=
  match ids with
  | Option.some l => store.filter (fun c => c.areaId ∈ l)
  | Option.none => store.take limit

/-- The whole map-nearest-police operation on a given store state. -/
def runMapNearestPolice (store : Store) (ids : Option (List String)) (limit : Nat)
    (oracle : ℚ → ℚ → Option (String × ℤ)) (dry : Bool) : PoliceMapResp :=
  mapNearestPolice (selectMapDocs store ids limit) store oracle dry

/-! ## Theorems -/

/-- C1: on the input lighting 10, crowd 10, police 10, incidents 0,
accidents 0 the implemented aggregation returns 8.5, not the specified 10.00:
the falsy reads turn the explicit zeros into the default 5 before inversion.
The spec-modelled canonical rule (default only when absent) does yield 10. -/
theorem claim1_full_safety_input_scores_8_5 :
    calculateSafetyScore (Option.some fullSafeFactors) = 17/2 ∧
    calculateSafetyScoreSpec (Option.some fullSafeFactors) = 10 := by
  constructor <;> decide

/-- C10: the aggregation cannot distinguish an explicit factor value 0 from a
removed factor: both are replaced by the neutral default 5, so setting any key
of any record to 0 produces the same score as deleting that key. -/
theorem claim10_zero_factor_equals_absent (f : Factors) (k : FactorKey) :
    calculateSafetyScore (Option.some (f.set k (Option.some 0))) =
    calculateSafetyScore (Option.some (f.set k Option.none)) := by
  cases k <;> rfl

theorem geoApply_geoBit_inBox (lat lng : ℚ) (isLon : Bool) (b : GeoBox)
    (h : InBox lat lng b) :
    InBox lat lng (geoApply isLon (geoBit lat lng isLon b) b) := by
  obtain ⟨hA, hB, hC, hD⟩ := h
  cases isLon
  · by_cases hlt : (b.maxLat + b.minLat) / 2 < lat
    · have hbit : geoBit lat lng false b = true := by simp [geoBit, hlt]
      rw [hbit]
      exact ⟨le_of_lt hlt, hB, hC, hD⟩
    · have hbit : geoBit lat lng false b = false := by simp [geoBit, hlt]
      rw [hbit]
      exact ⟨hA, le_of_not_lt hlt, hC, hD⟩
  · by_cases hlt : (b.maxLon + b.minLon) / 2 < lng
    · have hbit : geoBit lat lng true b = true := by simp [geoBit, hlt]
      rw [hbit]
      exact ⟨hA, hB, le_of_lt hlt, hD⟩
    · have hbit : geoBit lat lng true b = false := by simp [geoBit, hlt]
      rw [hbit]
      exact ⟨hA, hB, hC, le_of_not_lt hlt⟩

theorem encodeChar_inBox (lat lng : ℚ) (isLon : Bool) (b : GeoBox)
    (h : InBox lat lng b) :
    InBox lat lng (encodeChar lat lng isLon b).2.2 := by
  simp only [encodeChar]
  exact geoApply_geoBit_inBox _ _ _ _ (geoApply_geoBit_inBox _ _ _ _
    (geoApply_geoBit_inBox _ _ _ _ (geoApply_geoBit_inBox _ _ _ _
      (geoApply_geoBit_inBox _ _ _ _ h))))

theorem encodeLoop_inBox (lat lng : ℚ) :
    ∀ (n : Nat) (isLon : Bool) (b : GeoBox), InBox lat lng b →
      InBox lat lng (encodeLoop lat lng n isLon b).2 := by
  intro n
  induction n with
  | zero => intro isLon b h; exact h
  | succ n ih =>
    intro isLon b h
    simp only [encodeLoop]
    exact ih _ _ (encodeChar_inBox lat lng isLon b h)

theorem encodeLoop_length (lat lng : ℚ) :
    ∀ (n : Nat) (isLon : Bool) (b : GeoBox),
      (encodeLoop lat lng n isLon b).1.length = n := by
  intro n
  induction n with
  | zero => intro isLon b; rfl
  | succ n ih => intro isLon b; simp only [encodeLoop, List.length_cons, ih]

theorem hashVal_bit1 (b1 b2 b3 b4 b5 : Bool) :
    decide (base32Index (base32Char (hashVal b1 b2 b3 b4 b5)) / 16 % 2 = 1) = b1 := by
  revert b1 b2 b3 b4 b5; decide

theorem hashVal_bit2 (b1 b2 b3 b4 b5 : Bool) :
    decide (base32Index (base32Char (hashVal b1 b2 b3 b4 b5)) / 8 % 2 = 1) = b2 := by
  revert b1 b2 b3 b4 b5; decide

theorem hashVal_bit3 (b1 b2 b3 b4 b5 : Bool) :
    decide (base32Index (base32Char (hashVal b1 b2 b3 b4 b5)) / 4 % 2 = 1) = b3 := by
  revert b1 b2 b3 b4 b5; decide

theorem hashVal_bit4 (b1 b2 b3 b4 b5 : Bool) :
    decide (base32Index (base32Char (hashVal b1 b2 b3 b4 b5)) / 2 % 2 = 1) = b4 := by
  revert b1 b2 b3 b4 b5; decide

theorem hashVal_bit5 (b1 b2 b3 b4 b5 : Bool) :
    decide (base32Index (base32Char (hashVal b1 b2 b3 b4 b5)) % 2 = 1) = b5 := by
  revert b1 b2 b3 b4 b5; decide

/-- decode_bbox replays, character by character, exactly the subdivision
choices the encode loop made. -/
theorem decodeChar_replay (lat lng : ℚ) (isLon : Bool) (b : GeoBox) :
    decodeBBoxChar (encodeChar lat lng isLon b).1 isLon b =
      ((encodeChar lat lng isLon b).2.1, (encodeChar lat lng isLon b).2.2) := by
  simp only [encodeChar, decodeBBoxChar]
  rw [hashVal_bit1, hashVal_bit2, hashVal_bit3, hashVal_bit4, hashVal_bit5]

theorem decodeLoop_replay (lat lng : ℚ) :
    ∀ (n : Nat) (isLon : Bool) (b : GeoBox),
      decodeBBoxLoop (encodeLoop lat lng n isLon b).1 isLon b =
        (encodeLoop lat lng n isLon b).2 := by
  intro n
  induction n with
  | zero => intro isLon b; rfl
  | succ n ih =>
    intro isLon b
    simp only [encodeLoop, decodeBBoxLoop]
    rw [decodeChar_replay]
    exact ih _ _

/-- C8: for every valid coordinate pair, the bounding box decoded from its
cell id contains the coordinate. -/
theorem claim8_decode_bbox_contains (lat lng : ℚ)
    (h1 : -90 ≤ lat) (h2 : lat ≤ 90) (h3 : -180 ≤ lng) (h4 : lng ≤ 180) :
    (decode_bbox (encode lat lng)).1 ≤ lat ∧
    lat ≤ (decode_bbox (encode lat lng)).2.2.1 ∧
    (decode_bbox (encode lat lng)).2.1 ≤ lng ∧
    lng ≤ (decode_bbox (encode lat lng)).2.2.2 := by
  have h0 : InBox lat lng geoBox0 := ⟨h1, h2, h3, h4⟩
  have hrep : decodeBBoxLoop (String.mk (encodeLoop lat lng precision true geoBox0).1).data
      true geoBox0 = (encodeLoop lat lng precision true geoBox0).2 :=
    decodeLoop_replay lat lng precision true geoBox0
  have hin := encodeLoop_inBox lat lng precision true geoBox0 h0
  obtain ⟨hA, hB, hC, hD⟩ := hin
  simp only [decode_bbox, encode, hrep]
  exact ⟨hA, hB, hC, hD⟩

/-- C8 witness at the concrete in-range coordinate (23, 72). -/
theorem claim8_witness :
    (-90 ≤ (23 : ℚ)) ∧ ((23 : ℚ) ≤ 90) ∧ (-180 ≤ (72 : ℚ)) ∧ ((72 : ℚ) ≤ 180) ∧
    ((decode_bbox (encode 23 72)).1 ≤ 23 ∧
     (23 : ℚ) ≤ (decode_bbox (encode 23 72)).2.2.1 ∧
     (decode_bbox (encode 23 72)).2.1 ≤ 72 ∧
     (72 : ℚ) ≤ (decode_bbox (encode 23 72)).2.2.2) :=
  ⟨by decide, by decide, by decide, by decide,
    claim8_decode_bbox_contains 23 72 (by decide) (by decide) (by decide) (by decide)⟩

/-- C7 counterexample: at the out-of-range latitude 100 the encoder raises
nothing; it returns the ordinary 7-character id of the boundary latitude 90,
while the spec-modelled variant fails with RangeError there. -/
theorem claim7_counterexample :
    encode 100 0 = encode 90 0 ∧
    encodeRangeChecked 100 0 = Except.error "RangeError" ∧
    encodeRangeChecked 90 0 = Except.ok (encode 90 0) := by
  refine ⟨by decide, ?_, ?_⟩
  · have hc : (100 : ℚ) < -90 ∨ (90 : ℚ) < 100 ∨ (0 : ℚ) < -180 ∨ (180 : ℚ) < 0 := by
      right; left; decide
    unfold encodeRangeChecked
    rw [if_pos hc]
  · have hc : ¬((90 : ℚ) < -90 ∨ (90 : ℚ) < 90 ∨ (0 : ℚ) < -180 ∨ (180 : ℚ) < 0) := by
      decide
    unfold encodeRangeChecked
    rw [if_neg hc]

/-- C7 amended: encode is total and deterministic at the fixed precision 7
for every input; no range validation is performed. -/
theorem claim7_encode_total_fixed_precision (lat lng : ℚ) :
    (encode lat lng).length = 7 := by
  have h : (encodeLoop lat lng precision true geoBox0).1.length = precision :=
    encodeLoop_length lat lng precision true geoBox0
  simpa [encode, String.length] using h

theorem parseChunk_rest_le (s : List Char) :
    ∀ (shift acc : Nat), (parseChunk shift acc s).2.length ≤ s.length := by
  induction s with
  | nil => intro shift acc; exact Nat.le_refl _
  | cons c rest ih =>
    intro shift acc
    simp only [parseChunk]
    split
    · exact Nat.le_trans (ih _ _) (Nat.le_succ _)
    · exact Nat.le_succ _

theorem parseChunk_rest_lt (s : List Char) (h : s ≠ []) (shift acc : Nat) :
    (parseChunk shift acc s).2.length < s.length := by
  match s, h with
  | c :: rest, _ =>
    simp only [parseChunk]
    split
    · exact Nat.lt_succ_of_le (parseChunk_rest_le rest _ _)
    · exact Nat.lt_succ_of_le (Nat.le_refl _)

/-- Any fuel at least the input length computes the same list, so taking the
input length as fuel embeds the unbounded JS loop. -/
theorem polyDecodeAux_fuel (fuel : Nat) :
    ∀ (s : List Char) (lat lng : Int), s.length ≤ fuel →
      polyDecodeAux fuel s lat lng = polyDecodeAux s.length s lat lng := by
  induction fuel using Nat.strong_induction_on with
  | _ fuel ih =>
    intro s lat lng hle
    cases s with
    | nil => cases fuel <;> rfl
    | cons c rest =>
    cases fuel with
    | zero => exact absurd hle (by simp)
    | succ f =>
      simp only [polyDecodeAux, List.length_cons]
      have hlt : (parseChunk 1 0 (parseChunk 1 0 (c :: rest)).2).2.length ≤ rest.length := by
        have h1 : (parseChunk 1 0 (c :: rest)).2.length ≤ rest.length := by
          have := parseChunk_rest_lt (c :: rest) (by simp) 1 0
          simpa [Nat.lt_succ_iff] using this
        exact Nat.le_trans (parseChunk_rest_le _ _ _) h1
      have hf : rest.length ≤ f := by simpa [Nat.succ_le_succ_iff] using hle
      rw [ih f (Nat.lt_succ_self f) _ _ _ (Nat.le_trans hlt hf),
        ih rest.length (Nat.lt_succ_of_le hf) _ _ _ hlt]

/-- The decoder pushes one point per outer iteration, so every non-empty
string decodes to a non-empty point list: the recovery branches of
tryDecodePolyline are unreachable except on the empty string. -/
theorem polyDecode_ne_nil (s : List Char) (h : s ≠ []) : polyDecode s ≠ [] := by
  match s, h with
  | c :: rest, _ =>
    simp [polyDecode, polyDecodeAux]

/-- C9 counterexample: the clean polyline of two question marks is well
formed (it decodes to the single point (0, 0)), yet the pipeline applied to
its brace-wrapped variant returns a different point sequence: the direct
decode of the wrapped string already yields points, so the brace-stripping
recovery never runs. -/
theorem claim9_counterexample :
    polyDecode ['?', '?'] ≠ [] ∧
    (tryDecodePolyline (lbrace :: '?' :: '?' :: [rbrace])).pts ≠ polyDecode ['?', '?'] := by
  constructor <;> decide

/-- When the direct decode yields points the pipeline returns it unchanged. -/
theorem tryDecodePolyline_direct (s : List Char) (h : polyDecode s ≠ []) :
    tryDecodePolyline s = { pts := polyDecode s, encoded := s } := by
  simp [tryDecodePolyline, tryDecode, h]

/-- C9 amended: on every non-empty encoded string the pipeline returns the
direct decode unchanged (and it is non-empty), so no recovery step is ever
taken and a brace-wrapped variant is decoded as-is rather than stripped. -/
theorem claim9_pipeline_is_direct_decode (s : List Char) (h : s ≠ []) :
    tryDecodePolyline s = { pts := polyDecode s, encoded := s } ∧ polyDecode s ≠ [] :=
  ⟨tryDecodePolyline_direct s (polyDecode_ne_nil s h), polyDecode_ne_nil s h⟩

/-- C9 amended witness at the concrete polyline of two question marks. -/
theorem claim9_witness :
    (['?', '?'] ≠ ([] : List Char)) ∧
    (tryDecodePolyline ['?', '?'] = { pts := polyDecode ['?', '?'], encoded := ['?', '?'] } ∧
      polyDecode ['?', '?'] ≠ []) :=
  ⟨by decide, claim9_pipeline_is_direct_decode ['?', '?'] (by decide)⟩

/-- C5: a route whose encoded polyline yields no points even after every
recovery attempt contributes no item to the result list, and the remaining
routes of the batch are processed exactly as if it were absent. -/
theorem claim5_undecodable_route_dropped (avgKmph : ℚ)
    (pre post : List ProviderRoute) (r : ProviderRoute)
    (h : (tryDecodePolyline ((extractEncodedPolyline r).getD [])).pts = []) :
    processProviderRoutes avgKmph (pre ++ r :: post) =
      processProviderRoutes avgKmph pre ++ processProviderRoutes avgKmph post := by
  have hnone : mkItem avgKmph r = Option.none := by
    cases hex : extractEncodedPolyline r with
    | none => simp [mkItem, hex]
    | some e =>
      by_cases he : e = []
      · subst he; simp [mkItem, hex]
      · exfalso
        have hne := polyDecode_ne_nil e he
        rw [hex] at h
        rw [Option.getD_some, tryDecodePolyline_direct e hne] at h
        exact hne h
  simp [processProviderRoutes, List.filterMap_append, List.filterMap_cons, hnone]

/-- C5 witness: a route carrying the empty encoded polyline (the only
undecodable form) placed between two decodable routes. -/
theorem claim5_witness :
    ((tryDecodePolyline ((extractEncodedPolyline { poly := PolyField.pEnc [] }).getD [])).pts
        = []) ∧
    processProviderRoutes 30
        ([{ poly := PolyField.pEnc ['?', '?'] }] ++
          { poly := PolyField.pEnc [] } :: [{ poly := PolyField.pEnc ['A', 'A'] }]) =
      processProviderRoutes 30 [{ poly := PolyField.pEnc ['?', '?'] }] ++
        processProviderRoutes 30 [{ poly := PolyField.pEnc ['A', 'A'] }] :=
  ⟨by decide,
    claim5_undecodable_route_dropped 30
      [{ poly := PolyField.pEnc ['?', '?'] }] [{ poly := PolyField.pEnc ['A', 'A'] }]
      { poly := PolyField.pEnc [] } (by decide)⟩

theorem hasCell_iff_mem_keys (store : Store) (h : String) :
    hasCell store h = true ↔ h ∈ store.map (fun c => c.areaId) := by
  unfold hasCell
  rw [List.any_eq_true, List.mem_map]
  constructor
  · rintro ⟨c, hc, hd⟩
    exact ⟨c, hc, by simpa using hd⟩
  · rintro ⟨c, hc, hd⟩
    exact ⟨c, hc, by simpa using hd⟩

theorem upsertCell_nodup (store : Store) (h : String) (hnd : NodupKeys store) :
    NodupKeys (upsertCell store h) := by
  unfold upsertCell
  split
  · exact hnd
  · rename_i hmiss
    have hnot : h ∉ store.map (fun c => c.areaId) := by
      intro hmem
      exact hmiss ((hasCell_iff_mem_keys store h).mpr hmem)
    unfold NodupKeys
    rw [List.map_append]
    refine List.Nodup.append hnd (by simp) ?_
    intro a ha hb
    simp only [List.map_cons, List.map_nil, List.mem_singleton, defaultCell] at hb
    subst hb
    exact hnot ha

theorem foldl_upsert_nodup (ids : List String) :
    ∀ (store : Store), NodupKeys store → NodupKeys (ids.foldl upsertCell store) := by
  induction ids with
  | nil => intro store hnd; exact hnd
  | cons h rest ih => intro store hnd; exact ih _ (upsertCell_nodup store h hnd)

theorem upsertCell_preserves_find (store : Store) (h k : String) (v : CellDoc)
    (hkv : findCell store k = Option.some v) :
    findCell (upsertCell store h) k = Option.some v := by
  unfold upsertCell
  split
  · exact hkv
  · unfold findCell at hkv ⊢
    rw [List.find?_append, hkv]
    rfl

theorem foldl_upsert_preserves_find (ids : List String) :
    ∀ (store : Store) (k : String) (v : CellDoc),
      findCell store k = Option.some v →
      findCell (ids.foldl upsertCell store) k = Option.some v := by
  induction ids with
  | nil => intro store k v hkv; exact hkv
  | cons h rest ih =>
    intro store k v hkv
    exact ih _ _ _ (upsertCell_preserves_find store h k v hkv)

theorem hasCell_upsert_mono (store : Store) (h k : String)
    (hk : hasCell store k = true) : hasCell (upsertCell store h) k = true := by
  unfold upsertCell
  split
  · exact hk
  · simp only [hasCell, List.any_append] at hk ⊢
    rw [hk]
    rfl

theorem hasCell_upsert_self (store : Store) (h : String) :
    hasCell (upsertCell store h) h = true := by
  unfold upsertCell
  split
  · assumption
  · simp [hasCell, defaultCell]

theorem hasCell_foldl_mono (ids : List String) :
    ∀ (store : Store) (k : String), hasCell store k = true →
      hasCell (ids.foldl upsertCell store) k = true := by
  induction ids with
  | nil => intro store k hk; exact hk
  | cons h rest ih => intro store k hk; exact ih _ _ (hasCell_upsert_mono store h k hk)

theorem hasCell_foldl_of_mem (ids : List String) :
    ∀ (store : Store) (k : String), k ∈ ids →
      hasCell (ids.foldl upsertCell store) k = true := by
  induction ids with
  | nil => intro store k hk; cases hk
  | cons h rest ih =>
    intro store k hk
    rcases List.mem_cons.mp hk with rfl | hmem
    · exact hasCell_foldl_mono rest _ k (hasCell_upsert_self store k)
    · exact ih _ _ hmem

theorem mem_existingSet_iff (store : Store) (qids : List String) (h : String)
    (hmem : h ∈ qids) :
    h ∈ existingSetOf store qids ↔ hasCell store h = true := by
  rw [hasCell_iff_mem_keys]
  simp only [existingSetOf, List.mem_map, List.mem_filter, decide_eq_true_eq]
  constructor
  · rintro ⟨c, ⟨hc, _⟩, rfl⟩; exact ⟨c, hc, rfl⟩
  · rintro ⟨c, hc, rfl⟩; exact ⟨c, ⟨hc, hmem⟩, rfl⟩

theorem mem_missingOf_iff (store : Store) (qids : List String) (h : String) :
    h ∈ missingOf store qids ↔ h ∈ qids ∧ hasCell store h = false := by
  simp only [missingOf, List.mem_filter, decide_eq_true_eq]
  constructor
  · rintro ⟨hmem, hnot⟩
    refine ⟨hmem, ?_⟩
    cases hcv : hasCell store h
    · rfl
    · exact absurd ((mem_existingSet_iff store qids h hmem).mpr hcv) hnot
  · rintro ⟨hmem, hfalse⟩
    refine ⟨hmem, ?_⟩
    intro hmemset
    rw [(mem_existingSet_iff store qids h hmem).mp hmemset] at hfalse
    cases hfalse

theorem ensure_hasCell_of_mem (store : Store) (ids : List String) (h : String)
    (hm : h ∈ ids) : hasCell (ensureSafetyCells store ids).store h = true := by
  unfold ensureSafetyCells
  have hne : ids ≠ [] := by rintro rfl; cases hm
  rw [if_neg hne]
  by_cases hmiss : h ∈ missingOf store ids
  · split
    · rename_i hemp
      rw [hemp] at hmiss
      cases hmiss
    · exact hasCell_foldl_of_mem _ store h hmiss
  · have hpres : hasCell store h = true := by
      cases hcv : hasCell store h
      · exact absurd ((mem_missingOf_iff store ids h).mpr ⟨hm, hcv⟩) hmiss
      · rfl
    split
    · exact hpres
    · exact hasCell_foldl_mono _ store h hpres

theorem ensure_preserves_find (store : Store) (ids : List String) (k : String)
    (v : CellDoc) (hkv : findCell store k = Option.some v) :
    findCell (ensureSafetyCells store ids).store k = Option.some v := by
  unfold ensureSafetyCells
  split
  · exact hkv
  · split
    · exact hkv
    · exact foldl_upsert_preserves_find _ store k v hkv

theorem ensure_nodup (store : Store) (ids : List String) (hnd : NodupKeys store) :
    NodupKeys (ensureSafetyCells store ids).store := by
  unfold ensureSafetyCells
  split
  · exact hnd
  · split
    · exact hnd
    · exact foldl_upsert_nodup _ store hnd

theorem ensure_missing_mem (store : Store) (ids : List String) (h : String)
    (hm : h ∈ (ensureSafetyCells store ids).missing) :
    h ∈ ids ∧ hasCell store h = false := by
  unfold ensureSafetyCells at hm
  by_cases hne : ids = []
  · rw [if_pos hne] at hm
    cases hm
  · rw [if_neg hne] at hm
    exact (mem_missingOf_iff store ids h).mp hm

theorem ensure_created_eq_missing_length (store : Store) (ids : List String) :
    (ensureSafetyCells store ids).created = (ensureSafetyCells store ids).missing.length := by
  unfold ensureSafetyCells
  split <;> rfl

/-- C3: lazy cell creation is idempotent.  Starting from a store with unique
ids, one ensure run keeps ids unique (no duplicate records) and leaves every
existing document untouched; a second run over the same ids creates nothing,
and a second run over any overlapping id set never re-creates an id created
by the first run. -/
theorem claim3_ensure_cells_idempotent (store : Store) (ids ids2 : List String)
    (k : String) (v : CellDoc)
    (hnd : NodupKeys store) (hkv : findCell store k = Option.some v) :
    NodupKeys (ensureSafetyCells store ids).store ∧
    findCell (ensureSafetyCells store ids).store k = Option.some v ∧
    (ensureSafetyCells (ensureSafetyCells store ids).store ids).created = 0 ∧
    ((ensureSafetyCells (ensureSafetyCells store ids).store ids2).missing.filter
      (fun h => h ∈ (ensureSafetyCells store ids).missing)) = [] := by
  refine ⟨ensure_nodup store ids hnd, ensure_preserves_find store ids k v hkv, ?_, ?_⟩
  · rw [ensure_created_eq_missing_length]
    rw [List.length_eq_zero]
    by_contra hne
    obtain ⟨h, hm⟩ := List.exists_mem_of_ne_nil _ hne
    obtain ⟨hmem, habs⟩ := ensure_missing_mem _ ids h hm
    rw [ensure_hasCell_of_mem store ids h hmem] at habs
    cases habs
  · rw [List.filter_eq_nil_iff]
    intro h hm
    simp only [decide_eq_true_eq]
    intro hm1
    obtain ⟨hmem1, _⟩ := ensure_missing_mem store ids h hm1
    obtain ⟨_, habs⟩ := ensure_missing_mem _ ids2 h hm
    rw [ensure_hasCell_of_mem store ids h hmem1] at habs
    cases habs

/-- C3 witness: a store holding one real document, a first run creating two
cells and a second overlapping run creating none of them again. -/
theorem claim3_witness :
    NodupKeys [defaultCell "a"] ∧
    findCell [defaultCell "a"] "a" = Option.some (defaultCell "a") ∧
    (NodupKeys (ensureSafetyCells [defaultCell "a"] ["a", "b", "c"]).store ∧
     findCell (ensureSafetyCells [defaultCell "a"] ["a", "b", "c"]).store "a" =
       Option.some (defaultCell "a") ∧
     (ensureSafetyCells (ensureSafetyCells [defaultCell "a"] ["a", "b", "c"]).store
       ["a", "b", "c"]).created = 0 ∧
     ((ensureSafetyCells (ensureSafetyCells [defaultCell "a"] ["a", "b", "c"]).store
       ["b", "d"]).missing.filter
       (fun h => h ∈ (ensureSafetyCells [defaultCell "a"] ["a", "b", "c"]).missing)) = []) :=
  ⟨by decide, by decide,
    claim3_ensure_cells_idempotent [defaultCell "a"] ["a", "b", "c"] ["b", "d"]
      "a" (defaultCell "a") (by decide) (by decide)⟩

/-- C2 counterexample: scoreAndTagResults keeps the provider order.  With a
store scoring cell a at 3 and cell b at 8 and routes covering a then b, the
returned scores are 3 then 8 — not sorted descending. -/
theorem claim2_counterexample :
    ((scoreAndTagResults
        [{ areaIds := ["a"] }, { areaIds := ["b"] }]
        [{ areaId := "a", score := Option.some 3, factors := defaultFactors,
           nearestPolice := Option.none },
         { areaId := "b", score := Option.some 8, factors := defaultFactors,
           nearestPolice := Option.none }]).1).map (fun r => r.safety_score) =
      [ScoreVal.num 3, ScoreVal.num 8] ∧
    ¬ List.Pairwise (fun a b => scoreOrderedB a.safety_score b.safety_score = true)
        ((scoreAndTagResults
            [{ areaIds := ["a"] }, { areaIds := ["b"] }]
            [{ areaId := "a", score := Option.some 3, factors := defaultFactors,
               nearestPolice := Option.none },
             { areaId := "b", score := Option.some 8, factors := defaultFactors,
               nearestPolice := Option.none }]).1) := by
  constructor <;> decide

theorem mem_insertOrderDedup_aux (l : List String) :
    ∀ (acc : List String) (a : String),
      (a ∈ l.foldl (fun acc h => if h ∈ acc then acc else acc ++ [h]) acc ↔
        a ∈ acc ∨ a ∈ l) := by
  induction l with
  | nil => intro acc a; simp
  | cons h rest ih =>
    intro acc a
    simp only [List.foldl_cons]
    rw [ih]
    by_cases hmem : h ∈ acc
    · rw [if_pos hmem]
      constructor
      · rintro (ha | ha)
        · exact Or.inl ha
        · exact Or.inr (List.mem_cons_of_mem _ ha)
      · rintro (ha | ha)
        · exact Or.inl ha
        · rcases List.mem_cons.mp ha with rfl | ha
          · exact Or.inl hmem
          · exact Or.inr ha
    · rw [if_neg hmem]
      simp only [List.mem_append, List.mem_singleton, List.mem_cons]
      tauto

theorem mem_insertOrderDedup (l : List String) (a : String) :
    a ∈ insertOrderDedup l ↔ a ∈ l := by
  unfold insertOrderDedup
  rw [mem_insertOrderDedup_aux]
  simp

theorem nodupKeys_filter (store : Store) (p : CellDoc → Bool) (hnd : NodupKeys store) :
    NodupKeys (store.filter p) :=
  List.Nodup.sublist (List.Sublist.map _ (List.filter_sublist store)) hnd

theorem find?_reverse_nodup (l : Store) (k : String) (hnd : NodupKeys l) :
    l.reverse.find? (fun c => c.areaId = k) = l.find? (fun c => c.areaId = k) := by
  induction l with
  | nil => rfl
  | cons c rest ih =>
    have hnc := (List.nodup_cons.mp hnd).1
    have hnd' := (List.nodup_cons.mp hnd).2
    rw [List.reverse_cons, List.find?_append]
    by_cases he : c.areaId = k
    · have hnone : rest.reverse.find? (fun c => decide (c.areaId = k)) = Option.none := by
        rw [List.find?_eq_none]
        intro x hx
        simp only [decide_eq_true_eq]
        intro hxk
        apply hnc
        show c.areaId ∈ List.map (fun c => c.areaId) rest
        rw [he, ← hxk]
        exact List.mem_map_of_mem _ (List.mem_reverse.mp hx)
      rw [hnone]
      simp [he]
    · rw [ih hnd']
      simp [he]

theorem find?_filter_mem (l : Store) (q : List String) (k : String) (hk : k ∈ q) :
    (l.filter (fun c => c.areaId ∈ q)).find? (fun c => c.areaId = k) =
      l.find? (fun c => c.areaId = k) := by
  induction l with
  | nil => rfl
  | cons c rest ih =>
    by_cases he : c.areaId = k
    · simp [List.filter_cons, he, hk]
    · by_cases hq : c.areaId ∈ q
      · simp [List.filter_cons, he, hq, ih]
      · simp [List.filter_cons, he, hq, ih]

theorem scoreMapGet_resolved (store1 : Store) (q : List String) (k : String)
    (hnd : NodupKeys store1) (hk : k ∈ q) :
    (scoreMapGet (store1.filter (fun c => c.areaId ∈ q)) k).getD 5 =
      resolvedScore store1 k := by
  unfold scoreMapGet resolvedScore findCell
  rw [find?_reverse_nodup _ k (nodupKeys_filter store1 _ hnd), find?_filter_mem store1 q k hk]
  cases store1.find? (fun c => c.areaId = k) <;> rfl

theorem routeTotals_eq (cells : Store) (ids : List String) :
    routeTotals cells ids =
      ((ids.map (fun id => (scoreMapGet cells id).getD 5)).sum, ids.length) := by
  unfold routeTotals
  have h : ∀ (t : ℚ) (n : Nat),
      ids.foldl (fun tc id => (tc.1 + (scoreMapGet cells id).getD 5, tc.2 + 1)) (t, n) =
        (t + (ids.map (fun id => (scoreMapGet cells id).getD 5)).sum, n + ids.length) := by
    induction ids with
    | nil => intro t n; simp
    | cons id rest ih =>
      intro t n
      simp only [List.foldl_cons, List.map_cons, List.sum_cons, List.length_cons]
      rw [ih]
      refine congrArg₂ Prod.mk (by ring) (by omega)
  simpa using h 0 0

theorem scoreRoute_areaIds (cells : Store) (created : List String) (r : RouteItem) :
    (scoreRoute cells created r).areaIds = r.areaIds := by
  unfold scoreRoute
  split <;> rfl

theorem scoreRoute_score_eq (store1 : Store) (q : List String) (created : List String)
    (r : RouteItem) (hnd : NodupKeys store1) (hsub : ∀ id ∈ r.areaIds, id ∈ q) :
    (scoreRoute (store1.filter (fun c => c.areaId ∈ q)) created r).safety_score =
      expectedScore store1 r.areaIds := by
  unfold scoreRoute expectedScore
  by_cases hids : r.areaIds = []
  · rw [if_pos hids, if_pos hids]
  · rw [if_neg hids, if_neg hids]
    show (if (routeTotals (store1.filter (fun c => c.areaId ∈ q)) r.areaIds).2 ≠ 0 then
        ScoreVal.num (round2 ((routeTotals (store1.filter (fun c => c.areaId ∈ q)) r.areaIds).1 /
          ((routeTotals (store1.filter (fun c => c.areaId ∈ q)) r.areaIds).2 : ℚ)))
      else ScoreVal.noData) = _
    rw [routeTotals_eq]
    have hlen : r.areaIds.length ≠ 0 := fun h => hids (List.length_eq_zero.mp h)
    rw [if_pos hlen]
    have hmap : r.areaIds.map
        (fun id => (scoreMapGet (store1.filter (fun c => c.areaId ∈ q)) id).getD 5) =
        r.areaIds.map (resolvedScore store1) := by
      apply List.map_congr_left
      intro id hid
      exact scoreMapGet_resolved store1 q id hnd (hsub id hid)
    rw [hmap]

theorem map_snd_enumFrom {β : Type} (f : RouteItem → β) :
    ∀ (n : Nat) (t : List RouteItem), (List.enumFrom n t).map (fun p => f p.2) = t.map f := by
  intro n t
  induction t generalizing n with
  | nil => rfl
  | cons x xs ih => simp [List.enumFrom, ih]

theorem enum_update_map {β : Type} (f : RouteItem → β) (g : Nat → RouteItem → RouteItem)
    (hg : ∀ i r, f (g i r) = f r) (l : List RouteItem) :
    ((l.enum.map (fun p => g p.1 p.2)).map f) = l.map f := by
  rw [List.map_map]
  simp only [Function.comp_def]
  have h1 : l.enum.map (fun p => f (g p.1 p.2)) = l.enum.map (fun p => f p.2) :=
    List.map_congr_left (fun p _ => hg p.1 p.2)
  rw [h1]
  simpa [List.enum] using map_snd_enumFrom f 0 l

theorem tagRoutes_map_score (l : List RouteItem) :
    (tagRoutes l).map (fun r => r.safety_score) = l.map (fun r => r.safety_score) := by
  simp only [tagRoutes]
  exact enum_update_map (fun r => r.safety_score)
    (fun i r => { r with tags :=
      ((if (i : ℤ) = safestIndex l then ["safest"] else []) ++
        (if (i : ℤ) = fastestIndex l then ["fastest"] else []) ++
        (if (i : ℤ) = shortestIndex l then ["shortest"] else [])) })
    (fun i r => rfl) l

/-- C4: under the scoring step, every route with covered cells receives the
rounded arithmetic mean of its cells' resolved scores (ids resolving to
nothing counting 5) and every route without covered cells receives the
sentinel; stated for the whole result list in order. -/
theorem claim4_route_mean_score (store : Store) (rs : List RouteItem)
    (hnd : NodupKeys store) :
    ((scoreAndTagResults rs store).1).map (fun r => r.safety_score) =
      rs.map (fun r =>
        expectedScore (ensureSafetyCells store (unionHashes rs)).store r.areaIds) := by
  simp only [scoreAndTagResults]
  rw [tagRoutes_map_score, List.map_map]
  apply List.map_congr_left
  intro r hr
  apply scoreRoute_score_eq
  · exact ensure_nodup store _ hnd
  · intro id hid
    exact (mem_insertOrderDedup _ _).mpr
      (List.mem_flatten.mpr ⟨r.areaIds, List.mem_map_of_mem _ hr, hid⟩)

/-- C4 witness: the covered route receives the mean of 3 and the created
default 5, rounded (4.00); the uncovered route receives the sentinel. -/
theorem claim4_witness :
    NodupKeys [docA3] ∧
    ((scoreAndTagResults rsW [docA3]).1).map (fun r => r.safety_score) =
      rsW.map (fun r =>
        expectedScore (ensureSafetyCells [docA3] (unionHashes rsW)).store r.areaIds) :=
  ⟨by decide, claim4_route_mean_score [docA3] rsW (by decide)⟩

theorem jsMergeAux_perm (cmp : RouteItem → RouteItem → ℚ) :
    ∀ (f : Nat) (xs ys : List RouteItem), (jsMergeAux cmp f xs ys).Perm (xs ++ ys) := by
  intro f
  induction f with
  | zero => intro xs ys; exact List.Perm.refl _
  | succ f ih =>
    intro xs ys
    match xs, ys with
    | [], ys => simp [jsMergeAux]
    | x :: xs, [] => simp [jsMergeAux]
    | x :: xs, y :: ys =>
      simp only [jsMergeAux]
      split
      · exact (ih xs (y :: ys)).cons x
      · exact ((ih (x :: xs) ys).cons y).trans List.perm_middle.symm

theorem jsSortAux_perm (cmp : RouteItem → RouteItem → ℚ) :
    ∀ (f : Nat) (l : List RouteItem), (jsSortAux cmp f l).Perm l := by
  intro f
  induction f with
  | zero =>
    intro l
    match l with
    | [] => exact List.Perm.refl _
    | [x] => exact List.Perm.refl _
    | x :: y :: rest => exact List.Perm.refl _
  | succ f ih =>
    intro l
    match l with
    | [] => exact List.Perm.refl _
    | [x] => exact List.Perm.refl _
    | x :: y :: rest =>
      show (jsMerge cmp
        (jsSortAux cmp f ((x :: y :: rest).take ((x :: y :: rest).length / 2)))
        (jsSortAux cmp f ((x :: y :: rest).drop ((x :: y :: rest).length / 2)))).Perm _
      unfold jsMerge
      refine ((jsMergeAux_perm cmp _ _ _).trans ?_)
      refine ((ih _).append (ih _)).trans ?_
      rw [List.take_append_drop]

theorem jsMergeAux_pairwise (cmp : RouteItem → RouteItem → ℚ)
    (R : RouteItem → RouteItem → Prop)
    (hyield1 : ∀ x y, cmp x y ≤ 0 → R x y)
    (hyield2 : ∀ x y, ¬(cmp x y ≤ 0) → R y x)
    (htrans : ∀ a b c, R a b → R b c → R a c) :
    ∀ (f : Nat) (xs ys : List RouteItem), xs.length + ys.length ≤ f →
      xs.Pairwise R → ys.Pairwise R → (jsMergeAux cmp f xs ys).Pairwise R := by
  intro f
  induction f with
  | zero =>
    intro xs ys hlen hx hy
    match xs, ys with
    | [], [] => exact List.Pairwise.nil
    | x :: xs, ys => simp at hlen
    | [], y :: ys => simp at hlen
  | succ f ih =>
    intro xs ys hlen hx hy
    match xs, ys with
    | [], ys => exact hy
    | x :: xs, [] => exact hx
    | x :: xs, y :: ys =>
      obtain ⟨hxhead, hxtail⟩ := List.pairwise_cons.mp hx
      obtain ⟨hyhead, hytail⟩ := List.pairwise_cons.mp hy
      simp only [jsMergeAux]
      by_cases hc : cmp x y ≤ 0
      · rw [if_pos hc]
        refine List.Pairwise.cons ?_ (ih xs (y :: ys) (by simp at hlen ⊢; omega) hxtail hy)
        intro z hz
        have hz' := (jsMergeAux_perm cmp f xs (y :: ys)).mem_iff.mp hz
        rcases List.mem_append.mp hz' with hzx | hzy
        · exact hxhead z hzx
        · rcases List.mem_cons.mp hzy with rfl | hzy'
          · exact hyield1 x z hc
          · exact htrans x y z (hyield1 x y hc) (hyhead z hzy')
      · rw [if_neg hc]
        refine List.Pairwise.cons ?_ (ih (x :: xs) ys (by simp at hlen ⊢; omega) hx hytail)
        intro z hz
        have hz' := (jsMergeAux_perm cmp f (x :: xs) ys).mem_iff.mp hz
        rcases List.mem_append.mp hz' with hzx | hzy
        · rcases List.mem_cons.mp hzx with rfl | hzx'
          · exact hyield2 z y hc
          · exact htrans y x z (hyield2 x y hc) (hxhead z hzx')
        · exact hyhead z hzy

theorem jsSortAux_pairwise (cmp : RouteItem → RouteItem → ℚ)
    (R : RouteItem → RouteItem → Prop)
    (hyield1 : ∀ x y, cmp x y ≤ 0 → R x y)
    (hyield2 : ∀ x y, ¬(cmp x y ≤ 0) → R y x)
    (htrans : ∀ a b c, R a b → R b c → R a c) :
    ∀ (f : Nat) (l : List RouteItem), l.length ≤ f → (jsSortAux cmp f l).Pairwise R := by
  intro f
  induction f with
  | zero =>
    intro l hlen
    match l with
    | [] => exact List.Pairwise.nil
    | [x] => exact List.pairwise_singleton R x
    | x :: y :: rest => simp at hlen
  | succ f ih =>
    intro l hlen
    match l with
    | [] => exact List.Pairwise.nil
    | [x] => exact List.pairwise_singleton R x
    | x :: y :: rest =>
      show ((jsMerge cmp
        (jsSortAux cmp f ((x :: y :: rest).take ((x :: y :: rest).length / 2)))
        (jsSortAux cmp f ((x :: y :: rest).drop ((x :: y :: rest).length / 2)))).Pairwise R)
      unfold jsMerge
      apply jsMergeAux_pairwise cmp R hyield1 hyield2 htrans _ _ _ (Nat.le_refl _)
      · apply ih
        simp only [List.length_take, List.length_cons]
        simp only [List.length_cons] at hlen
        omega
      · apply ih
        simp only [List.length_drop, List.length_cons]
        simp only [List.length_cons] at hlen
        omega

theorem scoreOrderedB_trans (a b c : ScoreVal) :
    scoreOrderedB a b = true → scoreOrderedB b c = true → scoreOrderedB a c = true := by
  cases a <;> cases b <;> cases c <;> simp only [scoreOrderedB, decide_eq_true_eq] <;>
    first
      | (intro h1 h2; exact le_trans h2 h1)
      | (intro h1 h2; trivial)

theorem legacyCompare_le (x y : RouteItem) (h : legacyCompare x y ≤ 0) :
    scoreOrderedB x.safety_score y.safety_score = true := by
  unfold legacyCompare at h
  cases hx : x.safety_score with
  | noData =>
    rw [hx] at h
    have h' : (1 : ℚ) ≤ 0 := h
    norm_num at h'
  | num a =>
    cases hy : y.safety_score with
    | noData => simp [scoreOrderedB]
    | num b =>
      rw [hx, hy] at h
      have h' : b - a ≤ 0 := h
      simp only [scoreOrderedB, decide_eq_true_eq]
      exact sub_nonpos.mp h'

theorem legacyCompare_gt (x y : RouteItem) (h : ¬(legacyCompare x y ≤ 0)) :
    scoreOrderedB y.safety_score x.safety_score = true := by
  unfold legacyCompare at h
  cases hx : x.safety_score with
  | noData =>
    cases y.safety_score <;> simp [scoreOrderedB]
  | num a =>
    cases hy : y.safety_score with
    | noData =>
      rw [hx, hy] at h
      exact absurd (show ((-1 : ℚ)) ≤ 0 by norm_num) h
    | num b =>
      rw [hx, hy] at h
      have h' : ¬(b - a ≤ 0) := h
      simp only [scoreOrderedB, decide_eq_true_eq]
      have hba := lt_of_not_le h'
      linarith

theorem tagRoutes_map_areaIds (l : List RouteItem) :
    (tagRoutes l).map (fun r => r.areaIds) = l.map (fun r => r.areaIds) := by
  simp only [tagRoutes]
  exact enum_update_map (fun r => r.areaIds)
    (fun i r => { r with tags :=
      ((if (i : ℤ) = safestIndex l then ["safest"] else []) ++
        (if (i : ℤ) = fastestIndex l then ["fastest"] else []) ++
        (if (i : ℤ) = shortestIndex l then ["shortest"] else [])) })
    (fun i r => rfl) l

/-- C2 amended: the compare-routes scoring step returns the routes in input
order (it tags but does not rank); the descending order with sentinel-scored
routes last holds for the legacy GET handler's sort, whose result is a
permutation of its input in which no sentinel score precedes a numeric one
and numeric scores never increase. -/
theorem claim2_scoring_keeps_order_legacy_sort_ranks :
    (∀ (rs : List RouteItem) (store : Store),
      ((scoreAndTagResults rs store).1).map (fun r => r.areaIds) =
        rs.map (fun r => r.areaIds)) ∧
    (∀ l : List RouteItem,
      (sortResultsLegacy l).Perm l ∧
      (sortResultsLegacy l).Pairwise
        (fun a b => scoreOrderedB a.safety_score b.safety_score = true)) := by
  constructor
  · intro rs store
    simp only [scoreAndTagResults]
    rw [tagRoutes_map_areaIds, List.map_map]
    apply List.map_congr_left
    intro r _
    exact scoreRoute_areaIds _ _ r
  · intro l
    refine ⟨jsSortAux_perm legacyCompare l.length l, ?_⟩
    exact jsSortAux_pairwise legacyCompare _
      (fun x y h => legacyCompare_le x y h)
      (fun x y h => legacyCompare_gt x y h)
      (fun a b c h1 h2 => scoreOrderedB_trans _ _ _ h1 h2)
      l.length l (Nat.le_refl _)

theorem finalFlush_results (dry : Bool) (st : MapState) :
    (finalFlush dry st).results = st.results := by
  unfold finalFlush
  split <;> rfl

theorem finalFlush_true (st : MapState) : finalFlush true st = st := by
  unfold finalFlush
  rw [if_neg]
  simp

theorem mapNearestStep_results (oracle : ℚ → ℚ → Option (String × ℤ)) (dry : Bool)
    (st : MapState) (doc : CellDoc) :
    (mapNearestStep oracle dry st doc).results = st.results ++ [mapResultOf oracle doc] := by
  unfold mapNearestStep
  cases oracle (centerLat doc.areaId) (centerLng doc.areaId) with
  | none => rfl
  | some best =>
    dsimp only
    split
    · split <;> rfl
    · split <;> rfl

theorem mapNearestStep_dry (oracle : ℚ → ℚ → Option (String × ℤ))
    (st : MapState) (doc : CellDoc) (hops : st.ops = []) :
    mapNearestStep oracle true st doc =
      { st with results := st.results ++ [mapResultOf oracle doc] } := by
  unfold mapNearestStep
  cases oracle (centerLat doc.areaId) (centerLng doc.areaId) with
  | none => rfl
  | some best => simp [hops]

theorem mapNearestFold_results (oracle : ℚ → ℚ → Option (String × ℤ)) (dry : Bool) :
    ∀ (docs : List CellDoc) (st : MapState),
      (docs.foldl (mapNearestStep oracle dry) st).results =
        st.results ++ docs.map (mapResultOf oracle) := by
  intro docs
  induction docs with
  | nil => intro st; simp
  | cons doc rest ih =>
    intro st
    simp only [List.foldl_cons, List.map_cons]
    rw [ih, mapNearestStep_results]
    simp

theorem mapNearestFold_dry_state (oracle : ℚ → ℚ → Option (String × ℤ)) :
    ∀ (docs : List CellDoc) (st : MapState), st.ops = [] →
      (docs.foldl (mapNearestStep oracle true) st).ops = [] ∧
      (docs.foldl (mapNearestStep oracle true) st).store = st.store ∧
      (docs.foldl (mapNearestStep oracle true) st).updated = st.updated := by
  intro docs
  induction docs with
  | nil => intro st hops; exact ⟨hops, rfl, rfl⟩
  | cons doc rest ih =>
    intro st hops
    simp only [List.foldl_cons]
    rw [mapNearestStep_dry oracle st doc hops]
    exact ih _ hops

/-- C6: for every store state, id selection, limit and nearest-station
oracle, the dry run returns exactly the per-cell results of the live run,
leaves the store untouched, and reports updated 0. -/
theorem claim6_dry_run_frame (store : Store) (ids : Option (List String))
    (limit : Nat) (oracle : ℚ → ℚ → Option (String × ℤ)) :
    (runMapNearestPolice store ids limit oracle true).results =
      (runMapNearestPolice store ids limit oracle false).results ∧
    (runMapNearestPolice store ids limit oracle true).store = store ∧
    (runMapNearestPolice store ids limit oracle true).updated = 0 := by
  have hdry := mapNearestFold_dry_state oracle (selectMapDocs store ids limit)
    (initMapState store) rfl
  refine ⟨?_, ?_, rfl⟩
  · show (finalFlush true _).results = (finalFlush false _).results
    rw [finalFlush_results, finalFlush_results,
      mapNearestFold_results, mapNearestFold_results]
  · show (finalFlush true _).store = store
    rw [finalFlush_true]
    exact hdry.2.1

end SafeRoute
